import Mathlib

/-!
Shallow embedding of the fog-db-traits transactional core and certificate
module (src/transaction.rs, src/cert.rs).

Modelling conventions:
- `Hash`, `Identity` and `EntryRef` are opaque values with decidable
  equality; they are modelled as `Nat`.
- `Timestamp` is a totally ordered time value; it is modelled as `Int`.
- Rust `HashMap` values are modelled as functions into `Option`, and
  `HashSet` values as characteristic functions into `Bool`; the observable
  behaviour of the hash containers (keyed lookup, insert, remove) is
  exactly keyed function update.
- The fog-pack collaborators (`Schema` validation/encoding, `NoSchema`,
  `Document`/`Entry` hashing) are external to this repository; they are
  modelled as oracles: a `Document`/`Entry` carries its content hash,
  canonical bytes and reference lists as fields, and a `Schema` carries
  its validation outcomes as function fields.
- The database collaborator (`DbCommit`) is modelled by its read-only
  lookup functions `schema_get`/`doc_get`; internal database failures
  (the outer `DbResult` layer) are not modelled, since every property
  below concerns the recoverable inner results.
-/

namespace FogDb

/-- Content address of immutable data (opaque, decidable equality). -/
abbrev Hash : Type := Nat

/-- Public signing key used as a principal (opaque, decidable equality). -/
abbrev Identity : Type := Nat

/-- Totally ordered time value. -/
abbrev Timestamp : Type := Int

/-- Pair of parent document hash and entry key, modelled as an opaque id. -/
abbrev EntryRef : Type := Nat

/-- Opaque fog-pack error value. -/
abbrev FogError : Type := Nat

/-- A certificate replacement statement (src/cert.rs `CertReplace`). -/
structure CertReplace where
  revoke : Hash
  replace_with : Hash
deriving DecidableEq, Repr

/-- A certificate (src/cert.rs `Cert`). The Rust field `end` is a Lean
keyword, hence the guillemets. -/
structure Cert where
  subject : Identity
  context : Hash
  key : String
  val : String
  seq : Nat
  start : Timestamp
  «end» : Timestamp
  valid : Bool
  revokes : Option CertReplace
deriving DecidableEq, Repr

/-- Rust `Cert::is_valid`: check for validity. If no time is provided, the
start and end times are ignored. -/
def Cert.is_valid (c : Cert) (time : Option Timestamp) : Bool :=
  match time with
  | some time =>
    if time < c.start || time > c.«end» then false
    else c.valid
  | none => c.valid

/-- Rust `Cert::key_eq`: determine if two certificates are equal in
subject/context/key. -/
def Cert.key_eq (c other : Cert) : Bool :=
  c.subject == other.subject && c.context == other.context && c.key == other.key

/-- Rust `Cert::should_replace`: determine if the provided certificate should
replace this one. -/
def Cert.should_replace (c other : Cert) : Bool :=
  decide (other.start > c.start)
    || (decide (other.start = c.start) && decide (other.seq > c.seq))

/-- A certificate as held by a certificate store: the `Cert` document
content together with the identity that signed the document. The signer
is part of the enclosing fog-pack document's signature, not a field of
`Cert` itself. -/
structure SignedCert where
  cert : Cert
  signer : Identity
deriving DecidableEq, Repr

/-- A link in a policy chain (src/cert.rs `PolicyLink`). `min_issuers` is
a `NonZeroU8` in the source; it is modelled as a `Nat`. -/
structure PolicyLink where
  key : String
  val : String
  min_issuers : Nat
deriving DecidableEq, Repr

/-- A policy chain (src/cert.rs `PolicyChain`). -/
structure PolicyChain where
  chain : List PolicyLink
deriving DecidableEq, Repr

/-- A Policy (src/cert.rs `Policy`). -/
structure Policy where
  context : Hash
  roots : List Identity
  chains : List PolicyChain
deriving DecidableEq, Repr

/-- A fog-pack document, modelled as an oracle: it carries its content
hash, its optional schema hash, the hashes it references
(`find_hashes`) and its canonical encoded bytes. -/
structure Document where
  hash : Hash
  schema_hash : Option Hash
  refs : List Hash
  data : List Nat
deriving DecidableEq, Repr

/-- A fog-pack entry after validation, modelled as an oracle: it carries
the entry reference, canonical bytes, all referenced hashes
(`find_hashes`) and the schema-required reference subset produced by
`Schema::encode_entry`. -/
structure Entry where
  eref : EntryRef
  data : List Nat
  all_refs : List Hash
  required_refs : List Hash
deriving DecidableEq, Repr

/-- A candidate document prior to validation. `validated` is the outcome
of fog-pack validation for the schemaless path (`NoSchema`). -/
structure NewDocument where
  schema_hash : Option Hash
  validated : Except FogError Document

/-- A candidate entry prior to validation; `id` stands for its opaque
content, `schema_hash` is `NewEntry::schema_hash()`. -/
structure NewEntry where
  id : Nat
  schema_hash : Hash
deriving DecidableEq, Repr

/-- A checklist obligation produced by `Schema::validate_new_entry`: a
referenced hash together with the structural check (`item.check`) to run
against the referenced document; `none` means the check passes. -/
abbrev CheckItem : Type := Document → Option FogError

/-- A fog-pack schema, modelled as an oracle over its validation
functions. `validate_new_entry` yields the checklist of
(hash, structural check) obligations and the completed entry
(`checklist.complete()`). -/
structure Schema where
  validate_new_doc : NewDocument → Except FogError Document
  validate_new_entry : NewEntry → Except FogError (List (Hash × CheckItem) × Entry)

/-- The schemaless validator (`fog_pack::schema::NoSchema`), modelled as
the oracle outcome carried by the candidate document. -/
def NoSchema.validate_new_doc (doc : NewDocument) : Except FogError Document :=
  doc.validated

/-- src/transaction.rs `EncodedDoc`. -/
structure EncodedDoc where
  schema : Option Hash
  data : List Nat
  refs : List Hash
deriving DecidableEq, Repr

/-- Rust `EncodedDoc::from_doc`: canonical encoding of a document, returning
the encoded form and the document's content hash. The encoding itself is
fog-pack work; the oracle fields of `Document` supply its outcome. -/
def EncodedDoc.from_doc (_schema : Option Schema) (doc : Document) : EncodedDoc × Hash :=
  (⟨doc.schema_hash, doc.data, doc.refs⟩, doc.hash)

/-- src/transaction.rs `EncodedEntry`. -/
structure EncodedEntry where
  data : List Nat
  all_refs : List Hash
  required_refs : List Hash
deriving DecidableEq, Repr

/-- Rust `EncodedEntry::from_entry`: canonical encoding of an entry, returning
the encoded form and the entry reference. -/
def EncodedEntry.from_entry (_schema : Schema) (entry : Entry) : EncodedEntry × EntryRef :=
  (⟨entry.data, entry.all_refs, entry.required_refs⟩, entry.eref)

/-- src/transaction.rs `DocChange`: staged mutation for one document
hash. `Add.weak_ref` models the `HashSet<Hash>` of references to weaken
as a characteristic function; `Modify.weak_ref` models the
`HashMap<Hash, bool>` of desired weak flags. -/
inductive DocChange where
  | Add (encoded : EncodedDoc) (doc : Document) (weak_ref : Hash → Bool)
  | Modify (weak_ref : Hash → Option Bool)

/-- Rust `DocChange::add`: fold a pending `Modify` into a fresh `Add`, keeping
exactly the references whose weak flag is `true`; on an existing `Add`
this is a no-op. -/
def DocChange.add (c : DocChange) (encoded : EncodedDoc) (doc : Document) : DocChange :=
  match c with
  | .Modify weak_ref => .Add encoded doc (fun r => (weak_ref r).getD false)
  | .Add e d w => .Add e d w

/-- src/transaction.rs `EntryChange`: staged mutation for one EntryRef. -/
inductive EntryChange where
  | Add (entry : EncodedEntry) (ttl : Option Timestamp) (policy : Option Policy)
  | Modify (ttl : Option (Option Timestamp)) (policy : Option (Option Policy))
  | Delete
deriving DecidableEq

/-- Rust `EntryChange::add`: fold pending `Modify` overrides (defaulting to
none) or a pending `Delete` into a fresh `Add`; on an existing `Add`
this is a no-op. -/
def EntryChange.add (c : EntryChange) (entry : EncodedEntry) : EntryChange :=
  match c with
  | .Modify ttl policy => .Add entry (ttl.getD none) (policy.getD none)
  | .Delete => .Add entry none none
  | .Add e t p => .Add e t p

/-- src/transaction.rs `SchemaError`. -/
inductive SchemaError where
  | MissingSchema (h : Hash)
  | ValidationFail (e : FogError)
deriving DecidableEq, Repr

/-- src/transaction.rs `MissingSchema` (the document-add failure). -/
structure MissingSchema where
  hash : Hash
deriving DecidableEq, Repr

/-- src/transaction.rs `EntryError`. -/
inductive EntryError where
  | MissingEntrySchema (h : Hash)
  | EntryValidationFail (e : FogError)
  | DocValidationFail (doc : Hash) (source : FogError)
  | MissingDoc (h : Hash)
deriving DecidableEq, Repr

/-- The read-only face of the `DbCommit` collaborator used during
staging (`schema_get`, `doc_get`). -/
structure Db where
  schema_get : Hash → Option Schema
  doc_get : Hash → Option Document

/-- src/transaction.rs `Transaction`: the collaborator handle plus the
two change-set maps, modelled as keyed lookup functions. -/
structure Transaction where
  db : Db
  docs : Hash → Option DocChange
  entries : EntryRef → Option EntryChange

/-- Keyed update of a map modelled as a lookup function (the observable
effect of `HashMap::insert` / in-place mutation of an occupied slot). -/
def updateMap {α : Type} (m : Nat → Option α) (k : Nat) (v : α) : Nat → Option α :=
  fun x => if x = k then some v else m x

/-- Rust `Transaction::add_new_doc`: validate a candidate document against its
schema (or `NoSchema`) and stage a `DocChange::Add`, merging per
`DocChange::add` when the hash already has a pending change. Returns the
validated document on success together with the updated transaction. -/
def Transaction.add_new_doc (t : Transaction) (doc : NewDocument) :
    Except SchemaError Document × Transaction :=
  match doc.schema_hash with
  | some schema_hash =>
    match t.db.schema_get schema_hash with
    | none => (.error (.MissingSchema schema_hash), t)
    | some schema =>
      match schema.validate_new_doc doc with
      | .error e => (.error (.ValidationFail e), t)
      | .ok d =>
        let encoded := (EncodedDoc.from_doc (some schema) d).1
        let doc_hash := (EncodedDoc.from_doc (some schema) d).2
        match t.docs doc_hash with
        | some c =>
          (.ok d, { t with docs := updateMap t.docs doc_hash (c.add encoded d) })
        | none =>
          (.ok d, { t with
            docs := updateMap t.docs doc_hash (DocChange.Add encoded d (fun _ => false)) })
  | none =>
    match NoSchema.validate_new_doc doc with
    | .error e => (.error (.ValidationFail e), t)
    | .ok d =>
      let encoded := (EncodedDoc.from_doc none d).1
      let doc_hash := (EncodedDoc.from_doc none d).2
      match t.docs doc_hash with
      | some c =>
        (.ok d, { t with docs := updateMap t.docs doc_hash (c.add encoded d) })
      | none =>
        (.ok d, { t with
          docs := updateMap t.docs doc_hash (DocChange.Add encoded d (fun _ => false)) })

/-- Rust `Transaction::add_doc`: stage an already-validated `Document` as a
`DocChange::Add`, merging per `DocChange::add` when the hash already has
a pending change. Fails with `MissingSchema` when the document's schema
is absent from the database. -/
def Transaction.add_doc (t : Transaction) (doc : Document) :
    Except MissingSchema Unit × Transaction :=
  match doc.schema_hash with
  | some schema_hash =>
    match t.db.schema_get schema_hash with
    | none => (.error ⟨schema_hash⟩, t)
    | some schema =>
      let encoded := (EncodedDoc.from_doc (some schema) doc).1
      let doc_hash := (EncodedDoc.from_doc (some schema) doc).2
      match t.docs doc_hash with
      | some c =>
        (.ok (), { t with docs := updateMap t.docs doc_hash (c.add encoded doc) })
      | none =>
        (.ok (), { t with
          docs := updateMap t.docs doc_hash (DocChange.Add encoded doc (fun _ => false)) })
  | none =>
    let encoded := (EncodedDoc.from_doc none doc).1
    let doc_hash := (EncodedDoc.from_doc none doc).2
    match t.docs doc_hash with
    | some c =>
      (.ok (), { t with docs := updateMap t.docs doc_hash (c.add encoded doc) })
    | none =>
      (.ok (), { t with
        docs := updateMap t.docs doc_hash (DocChange.Add encoded doc (fun _ => false)) })

/-- The dependency-resolution loop of `Transaction::add_new_entry`: walk
the checklist in order; for each (hash, check) obligation look the hash
up among the transaction's pending `DocChange::Add` documents first,
then in the database; run the structural check against whichever
document was found; abort at the first check failure
(`DocValidationFail`) or unresolved hash (`MissingDoc`). -/
def Transaction.check_refs (t : Transaction) :
    List (Hash × CheckItem) → Except EntryError Unit
  | [] => .ok ()
  | (link_hash, item) :: rest =>
    match t.docs link_hash with
    | some (DocChange.Add _ doc _) =>
      match item doc with
      | some e => .error (.DocValidationFail link_hash e)
      | none => t.check_refs rest
    | _ =>
      match t.db.doc_get link_hash with
      | some doc =>
        match item doc with
        | some e => .error (.DocValidationFail link_hash e)
        | none => t.check_refs rest
      | none => .error (.MissingDoc link_hash)

/-- Rust `Transaction::add_new_entry`: resolve the entry's schema, validate
the entry, resolve and check every checklist obligation via
`check_refs`, and only on full success stage an `EntryChange::Add`
(merging per `EntryChange::add` when the `EntryRef` already has a
pending change). -/
def Transaction.add_new_entry (t : Transaction) (entry : NewEntry) :
    Except EntryError Unit × Transaction :=
  match t.db.schema_get entry.schema_hash with
  | none => (.error (.MissingEntrySchema entry.schema_hash), t)
  | some schema =>
    match schema.validate_new_entry entry with
    | .error e => (.error (.EntryValidationFail e), t)
    | .ok (checklist, completed) =>
      match t.check_refs checklist with
      | .error e => (.error e, t)
      | .ok _ =>
        let entry := (EncodedEntry.from_entry schema completed).1
        let e_ref := (EncodedEntry.from_entry schema completed).2
        match t.entries e_ref with
        | some c =>
          (.ok (), { t with entries := updateMap t.entries e_ref (c.add entry) })
        | none =>
          (.ok (), { t with
            entries := updateMap t.entries e_ref (EntryChange.Add entry none none) })

/-- Rust `Transaction::set_weak_ref`: weaken/strengthen a reference for a
document. On a pending `Add`, insert into / remove from the weak set;
on a pending `Modify`, record the desired flag; otherwise create a
fresh `Modify` carrying just this flag. -/
def Transaction.set_weak_ref (t : Transaction) (doc : Hash) (ref_hash : Hash)
    (weak : Bool) : Transaction :=
  match t.docs doc with
  | some (DocChange.Add encoded d weak_ref) =>
    let weak_ref := if weak then (fun r => if r = ref_hash then true else weak_ref r)
      else (fun r => if r = ref_hash then false else weak_ref r)
    { t with docs := updateMap t.docs doc (DocChange.Add encoded d weak_ref) }
  | some (DocChange.Modify weak_ref) =>
    let weak_ref := fun r => if r = ref_hash then some weak else weak_ref r
    { t with docs := updateMap t.docs doc (DocChange.Modify weak_ref) }
  | none =>
    let weak_ref : Hash → Option Bool := fun r => if r = ref_hash then some weak else none
    { t with docs := updateMap t.docs doc (DocChange.Modify weak_ref) }

/-- Rust `Transaction::set_ttl`: set or clear the time-to-live for an entry.
On a pending `Delete` the transaction is untouched. -/
def Transaction.set_ttl (t : Transaction) (entry : EntryRef)
    (ttl : Option Timestamp) : Transaction :=
  match t.entries entry with
  | some (EntryChange.Add e _ policy) =>
    { t with entries := updateMap t.entries entry (EntryChange.Add e ttl policy) }
  | some (EntryChange.Modify _ policy) =>
    { t with entries := updateMap t.entries entry (EntryChange.Modify (some ttl) policy) }
  | some EntryChange.Delete => t
  | none =>
    { t with entries := updateMap t.entries entry (EntryChange.Modify (some ttl) none) }

/-- Rust `Transaction::set_policy`: set or clear the policy for an entry. On a
pending `Delete` the transaction is untouched. -/
def Transaction.set_policy (t : Transaction) (entry : EntryRef)
    (policy : Option Policy) : Transaction :=
  match t.entries entry with
  | some (EntryChange.Add e ttl _) =>
    { t with entries := updateMap t.entries entry (EntryChange.Add e ttl policy) }
  | some (EntryChange.Modify ttl _) =>
    { t with entries := updateMap t.entries entry (EntryChange.Modify ttl (some policy)) }
  | some EntryChange.Delete => t
  | none =>
    { t with entries := updateMap t.entries entry (EntryChange.Modify none (some policy)) }

/-- Rust `Transaction::del_entry`: unconditionally stage `Delete` for the
entry reference. -/
def Transaction.del_entry (t : Transaction) (entry : EntryRef) : Transaction :=
  { t with entries := updateMap t.entries entry EntryChange.Delete }

/-- Whether the transaction holds a pending `DocChange::Add` for `h`
(the transaction-local lookup `add_new_entry` consults before the
database). -/
def Transaction.has_pending_add (t : Transaction) (h : Hash) : Bool :=
  match t.docs h with
  | some (DocChange.Add _ _ _) => true
  | _ => false

/-- Modelled from the spec: the repository only declares the `Policy`
data type; the policy resolver itself (`satisfies`) is not part of the
source, so the chain-evaluation step is modelled from the spec's words.
Evaluate the links of one chain, already reversed so that evaluation
starts at the chain's last link: the identity under test must be named
as subject by valid certificates (matching the policy context and the
link's key/val pair) issued by at least `min_issuers` distinct signers
that themselves satisfy the remaining links; with no links left, the
identity must be a root. -/
def Policy.satisfies_links (p : Policy) (source : List SignedCert)
    (time : Option Timestamp) : List PolicyLink → Identity → Bool
  | [], identity => p.roots.contains identity
  | link :: rest, identity =>
    let signers := (source.filter (fun sc =>
      sc.cert.is_valid time && sc.cert.context == p.context && sc.cert.key == link.key
        && sc.cert.val == link.val && sc.cert.subject == identity)).map SignedCert.signer
    let qualified := signers.dedup.filter (fun s => p.satisfies_links source time rest s)
    decide (qualified.length ≥ link.min_issuers)

/-- Modelled from the spec: the policy resolver `satisfies(policy,
identity, certificate_source, time)`, absent from the source. An
identity satisfies the policy if it is one of the roots, or if it
satisfies any one of the policy's chains, each chain being evaluated
from its last link backward toward the roots. -/
def Policy.satisfies (p : Policy) (identity : Identity) (source : List SignedCert)
    (time : Option Timestamp) : Bool :=
  p.roots.contains identity
    || p.chains.any (fun c => p.satisfies_links source time c.chain.reverse identity)

/-! Helper lemmas about the map model. -/

theorem updateMap_self {α : Type} (m : Nat → Option α) (k : Nat) (v : α)
    (h : m k = some v) : updateMap m k v = m := by
  funext x
  by_cases hx : x = k
  · subst hx
    simp only [updateMap, if_pos rfl]
    exact h.symm
  · simp only [updateMap, if_neg hx]

theorem updateMap_same {α : Type} (m : Nat → Option α) (k : Nat) (v : α) :
    updateMap m k v k = some v := by
  simp [updateMap]

theorem updateMap_other {α : Type} (m : Nat → Option α) (k x : Nat) (v : α)
    (hx : x ≠ k) : updateMap m k v x = m x := by
  simp [updateMap, hx]

/-- The document-change value staged by `add_doc`/`add_new_doc` for a
hash, as a function of the hash's previous pending change (the
`hash_map::Entry` match shared by both functions). -/
def stage_value (prev : Option DocChange) (encoded : EncodedDoc) (d : Document) :
    DocChange :=
  match prev with
  | some c => c.add encoded d
  | none => DocChange.Add encoded d (fun _ => false)

/-- The result value of `add_doc` depends only on the schema lookup, not
on the staged maps. -/
theorem add_doc_fst (t : Transaction) (doc : Document) :
    (t.add_doc doc).1 = (match doc.schema_hash with
      | some sh => match t.db.schema_get sh with
        | none => Except.error ⟨sh⟩
        | some _ => Except.ok ()
      | none => Except.ok ()) := by
  unfold Transaction.add_doc
  cases hsh : doc.schema_hash with
  | none =>
    dsimp only [EncodedDoc.from_doc]
    cases hd : t.docs doc.hash <;> simp [hd]
  | some sh =>
    cases hg : t.db.schema_get sh with
    | none => simp [hg]
    | some schema =>
      dsimp only [hg, EncodedDoc.from_doc]
      cases hd : t.docs doc.hash <;> simp [hg, hd]

/-- On success, `add_doc` updates exactly the staged slot of the
document's hash with the merged change value. -/
theorem add_doc_ok (t : Transaction) (doc : Document)
    (hok : (t.add_doc doc).1 = Except.ok ()) :
    (t.add_doc doc).2 = Transaction.mk t.db
      (updateMap t.docs doc.hash
        (stage_value (t.docs doc.hash) ⟨doc.schema_hash, doc.data, doc.refs⟩ doc))
      t.entries := by
  unfold Transaction.add_doc
  cases hsh : doc.schema_hash with
  | none =>
    dsimp only [EncodedDoc.from_doc]
    cases hd : t.docs doc.hash <;> simp [stage_value, hsh, hd]
  | some sh =>
    cases hg : t.db.schema_get sh with
    | none => simp [add_doc_fst, hsh, hg] at hok
    | some schema =>
      dsimp only [hg, EncodedDoc.from_doc]
      cases hd : t.docs doc.hash <;> simp [stage_value, hsh, hg, hd]

/-- On failure, `add_doc` leaves the transaction untouched. -/
theorem add_doc_err (t : Transaction) (doc : Document) (err : MissingSchema)
    (he : (t.add_doc doc).1 = Except.error err) : (t.add_doc doc).2 = t := by
  cases hsh : doc.schema_hash with
  | none => simp [add_doc_fst, hsh] at he
  | some sh =>
    cases hg : t.db.schema_get sh with
    | none =>
      unfold Transaction.add_doc
      simp [hsh, hg]
    | some schema => simp [add_doc_fst, hsh, hg] at he

/-- The result value of `add_new_doc` depends only on the schema lookup
and validation outcome, not on the staged maps. -/
theorem add_new_doc_fst (t : Transaction) (nd : NewDocument) :
    (t.add_new_doc nd).1 = (match nd.schema_hash with
      | some sh => match t.db.schema_get sh with
        | none => Except.error (SchemaError.MissingSchema sh)
        | some schema => match schema.validate_new_doc nd with
          | .error e => Except.error (SchemaError.ValidationFail e)
          | .ok d => Except.ok d
      | none => match NoSchema.validate_new_doc nd with
        | .error e => Except.error (SchemaError.ValidationFail e)
        | .ok d => Except.ok d) := by
  unfold Transaction.add_new_doc
  cases hsh : nd.schema_hash with
  | none =>
    cases hv : NoSchema.validate_new_doc nd with
    | error e => simp [hv]
    | ok d =>
      dsimp only [hv, EncodedDoc.from_doc]
      cases hd : t.docs d.hash <;> simp [hv, hd]
  | some sh =>
    cases hg : t.db.schema_get sh with
    | none => simp [hg]
    | some schema =>
      cases hv : schema.validate_new_doc nd with
      | error e => simp [hg, hv]
      | ok d =>
        dsimp only [hg, hv, EncodedDoc.from_doc]
        cases hd : t.docs d.hash <;> simp [hg, hv, hd]

/-- On success, `add_new_doc` returns the validated document and updates
exactly the staged slot of its hash with the merged change value. -/
theorem add_new_doc_ok (t : Transaction) (nd : NewDocument) (d : Document)
    (hok : (t.add_new_doc nd).1 = Except.ok d) :
    (t.add_new_doc nd).2 = Transaction.mk t.db
      (updateMap t.docs d.hash
        (stage_value (t.docs d.hash) ⟨d.schema_hash, d.data, d.refs⟩ d))
      t.entries := by
  unfold Transaction.add_new_doc
  cases hsh : nd.schema_hash with
  | none =>
    cases hv : NoSchema.validate_new_doc nd with
    | error e => simp [add_new_doc_fst, hsh, hv] at hok
    | ok d2 =>
      have hd2 : d2 = d := by simpa [add_new_doc_fst, hsh, hv] using hok
      subst hd2
      dsimp only [hv, EncodedDoc.from_doc]
      cases hd : t.docs d2.hash <;> simp [stage_value, hd]
  | some sh =>
    cases hg : t.db.schema_get sh with
    | none => simp [add_new_doc_fst, hsh, hg] at hok
    | some schema =>
      cases hv : schema.validate_new_doc nd with
      | error e => simp [add_new_doc_fst, hsh, hg, hv] at hok
      | ok d2 =>
        have hd2 : d2 = d := by simpa [add_new_doc_fst, hsh, hg, hv] using hok
        subst hd2
        dsimp only [EncodedDoc.from_doc]
        cases hd : t.docs d2.hash <;> simp [stage_value, hg, hv, hd]

theorem updateMap_updateMap {α : Type} (m : Nat → Option α) (k : Nat) (a b : α) :
    updateMap (updateMap m k a) k b = updateMap m k b := by
  funext x
  by_cases hx : x = k <;> simp [updateMap, hx]

/-- The document-change value left by `set_weak_ref` for the target
hash, as a function of its previous pending change. -/
def swr_value (prev : Option DocChange) (ref_hash : Hash) (weak : Bool) : DocChange :=
  match prev with
  | some (DocChange.Add encoded d weak_ref) =>
    DocChange.Add encoded d
      (if weak then (fun r => if r = ref_hash then true else weak_ref r)
       else (fun r => if r = ref_hash then false else weak_ref r))
  | some (DocChange.Modify weak_ref) =>
    DocChange.Modify (fun r => if r = ref_hash then some weak else weak_ref r)
  | none => DocChange.Modify (fun r => if r = ref_hash then some weak else none)

/-- Lemma: `set_weak_ref` updates exactly the staged slot of the target hash. -/
theorem set_weak_ref_eq (t : Transaction) (a b : Hash) (wk : Bool) :
    t.set_weak_ref a b wk =
      Transaction.mk t.db (updateMap t.docs a (swr_value (t.docs a) b wk)) t.entries := by
  unfold Transaction.set_weak_ref swr_value
  cases hd : t.docs a with
  | none => rfl
  | some c => cases c <;> rfl

/-- Weakening a reference before staging the add produces the same change
value as staging the add first and weakening afterwards. -/
theorem stage_swr_comm (p : Option DocChange) (enc : EncodedDoc) (d : Document)
    (R : Hash) :
    stage_value (some (swr_value p R true)) enc d =
      swr_value (some (stage_value p enc d)) R true := by
  cases p with
  | none =>
    simp only [stage_value, swr_value, DocChange.add, if_true]
    congr 1
    funext r
    by_cases hr : r = R <;> simp [hr]
  | some c =>
    cases c with
    | Add e0 d0 w0 => simp [stage_value, swr_value, DocChange.add]
    | Modify m0 =>
      simp only [stage_value, swr_value, DocChange.add, if_true]
      congr 1
      funext r
      by_cases hr : r = R <;> simp [hr]

/-- The change value produced by weakening then staging is an `Add`
whose weak set contains the weakened reference. -/
theorem stage_swr_is_add (p : Option DocChange) (enc : EncodedDoc) (d : Document)
    (R : Hash) :
    ∃ e dd w, stage_value (some (swr_value p R true)) enc d = DocChange.Add e dd w ∧
      w R = true := by
  cases p with
  | none =>
    refine ⟨_, _, _, rfl, ?_⟩
    simp [swr_value, stage_value, DocChange.add]
  | some c =>
    cases c with
    | Add e0 d0 w0 =>
      refine ⟨_, _, _, rfl, ?_⟩
      simp [swr_value, stage_value, DocChange.add]
    | Modify m0 =>
      refine ⟨_, _, _, rfl, ?_⟩
      simp [swr_value, stage_value, DocChange.add]

/-! Concrete instances used by counterexamples and witnesses. -/

/-- A database with no schemas and no documents. -/
def dbEmpty : Db := ⟨fun _ => none, fun _ => none⟩

/-- A schemaless document with hash 5. -/
def docN : Document := ⟨5, none, [], []⟩

/-- The encoding of `docN`. -/
def encN : EncodedDoc := ⟨none, [], []⟩

/-- The empty weak-reference set. -/
def wFalse : Hash → Bool := fun _ => false

/-- A pending `Modify` weak-flag map: reference 3 flagged weak,
reference 2 explicitly flagged strong, all others untouched. -/
def mExample : Hash → Option Bool :=
  fun r => if r = 3 then some true else if r = 2 then some false else none

/-- An empty transaction over the empty database. -/
def tEmpty : Transaction := ⟨dbEmpty, fun _ => none, fun _ => none⟩

/-- A transaction with a pending `Modify mExample` for hash 5. -/
def tMod : Transaction :=
  ⟨dbEmpty, fun h => if h = 5 then some (DocChange.Modify mExample) else none,
    fun _ => none⟩

/-- A transaction with a pending `Add` of `docN` for hash 5. -/
def tAdd : Transaction :=
  ⟨dbEmpty, fun h => if h = 5 then some (DocChange.Add encN docN wFalse) else none,
    fun _ => none⟩

/-- A transaction with a pending `Delete` for entry reference 4. -/
def tDel : Transaction :=
  ⟨dbEmpty, fun _ => none, fun e => if e = 4 then some EntryChange.Delete else none⟩

/-- A concrete certificate. -/
def certA : Cert :=
  { subject := 0, context := 0, key := "k", val := "v", seq := 0,
    start := 0, «end» := 10, valid := true, revokes := none }

/-- Certificate `certA` as stored with signer identity 3. -/
def storedA : SignedCert := ⟨certA, 3⟩

/-- Certificate `certA` as stored with the distinct signer identity 4. -/
def storedB : SignedCert := ⟨certA, 4⟩

/-- A concrete policy with one root and no chains. -/
def policyA : Policy := { context := 0, roots := [7], chains := [] }

/-! Theorems for the frozen claims. -/

/-- C6: `should_replace(c1, c2)` returns true iff `c2.start > c1.start`,
or `c2.start = c1.start` and `c2.seq > c1.seq`; hence it is false on a
full tie and false whenever `c1` dominates. -/
theorem should_replace_iff (c1 c2 : Cert) :
    c1.should_replace c2 = true ↔
      (c2.start > c1.start ∨ (c2.start = c1.start ∧ c2.seq > c1.seq)) := by
  simp [Cert.should_replace]

/-- C7: `is_valid(Some t)` returns true iff `start ≤ t ≤ end` and the
`valid` flag is true; `is_valid(None)` equals the `valid` flag with the
time window ignored. -/
theorem is_valid_iff (c : Cert) (t : Timestamp) :
    (c.is_valid (some t) = true ↔ (c.start ≤ t ∧ t ≤ c.«end» ∧ c.valid = true)) ∧
    c.is_valid none = c.valid := by
  refine ⟨?_, rfl⟩
  simp only [Cert.is_valid]
  by_cases h1 : t < c.start
  · simp [h1, not_le.mpr h1]
  · by_cases h2 : t > c.«end»
    · simp [h1, h2, not_le.mpr h2]
    · simp [h1, h2, not_lt.mp h1, not_lt.mp h2]

/-- C8 counterexample: the slot-equality check `key_eq` does not compare
signers. `storedA` and `storedB` hold the same certificate content
signed by distinct identities: `key_eq` returns true although the two
stored certificates do not share the same signer, refuting the claimed
"if and only if" over subject, context, key and signer. -/
theorem key_eq_signer_cex :
    ¬ (Cert.key_eq storedA.cert storedB.cert = true ↔
        (storedA.cert.subject = storedB.cert.subject ∧
         storedA.cert.context = storedB.cert.context ∧
         storedA.cert.key = storedB.cert.key ∧
         storedA.signer = storedB.signer)) := by
  decide

/-- C8 (amended): `key_eq` returns true iff the two certificates share
the exact same subject, context and key; the signer (which is not a
field of `Cert`) is not part of the comparison. -/
theorem key_eq_iff (c1 c2 : Cert) :
    c1.key_eq c2 = true ↔
      (c1.subject = c2.subject ∧ c1.context = c2.context ∧ c1.key = c2.key) := by
  simp [Cert.key_eq, and_assoc]

/-- C9: for a policy whose chain list is empty, `satisfies` returns true
iff the identity is a member of the policy's roots. -/
theorem satisfies_empty_chains (p : Policy) (identity : Identity)
    (source : List SignedCert) (time : Option Timestamp) (hc : p.chains = []) :
    (p.satisfies identity source time = true ↔ identity ∈ p.roots) := by
  simp [Policy.satisfies, hc]

/-- C9 witness: `policyA` has roots `[7]` and no chains; identity 7
satisfies it and identity 8 does not. -/
theorem satisfies_empty_chains_witness :
    policyA.chains = [] ∧
      (policyA.satisfies 7 [storedA] none = true ↔ 7 ∈ policyA.roots) ∧
      (policyA.satisfies 8 [storedA] none = true ↔ 8 ∈ policyA.roots) :=
  ⟨rfl, satisfies_empty_chains policyA 7 [storedA] none rfl,
    satisfies_empty_chains policyA 8 [storedA] none rfl⟩

/-- C5: `del_entry(E)` unconditionally leaves exactly
`EntryChange::Delete` at `E` for every prior staged state (including a
pending `Add`, which is discarded), and touches no other entry slot. -/
theorem del_entry_overwrites (t : Transaction) (E E2 : EntryRef) :
    (t.del_entry E).entries E = some EntryChange.Delete ∧
    (t.del_entry E).entries E2 =
      (if E2 = E then some EntryChange.Delete else t.entries E2) :=
  ⟨updateMap_same t.entries E _, rfl⟩

/-- C10: when the pending change for an entry reference is
`EntryChange::Delete`, `set_ttl` and `set_policy` leave the transaction
entirely unchanged for every argument. -/
theorem set_on_delete_noop (t : Transaction) (E : EntryRef)
    (hd : t.entries E = some EntryChange.Delete) :
    (∀ ttl, t.set_ttl E ttl = t) ∧ (∀ p, t.set_policy E p = t) := by
  constructor
  · intro ttl
    simp only [Transaction.set_ttl, hd]
  · intro p
    simp only [Transaction.set_policy, hd]

/-- C10 witness: concrete transaction `tDel` with a pending `Delete` at
entry reference 4. -/
theorem set_on_delete_noop_witness :
    tDel.entries 4 = some EntryChange.Delete ∧
      ((∀ ttl, tDel.set_ttl 4 ttl = tDel) ∧ (∀ p, tDel.set_policy 4 p = tDel)) :=
  ⟨rfl, set_on_delete_noop tDel 4 rfl⟩

/-- C4: when hash `H` already has a pending `DocChange::Add`, staging
another add for `H` (via `add_doc`, or via `add_new_doc` when it
validates to a document with hash `H`) keeps the transaction exactly as
it was: the first encoding, document and weak set survive unchanged. -/
theorem add_on_pending_add_noop (t : Transaction) (H : Hash) (e : EncodedDoc)
    (d : Document) (w : Hash → Bool)
    (hm : t.docs H = some (DocChange.Add e d w)) :
    (∀ doc : Document, doc.hash = H → (t.add_doc doc).2 = t ∧
      ((t.add_doc doc).2).docs H = some (DocChange.Add e d w)) ∧
    (∀ (nd : NewDocument) (d2 : Document), (t.add_new_doc nd).1 = Except.ok d2 →
      d2.hash = H → (t.add_new_doc nd).2 = t ∧
      ((t.add_new_doc nd).2).docs H = some (DocChange.Add e d w)) := by
  constructor
  · intro doc hh
    have h2 : (t.add_doc doc).2 = t := by
      cases hres : (t.add_doc doc).1 with
      | error err => exact add_doc_err t doc err hres
      | ok u =>
        cases u
        rw [add_doc_ok t doc hres, hh, hm]
        simp only [stage_value, DocChange.add]
        rw [updateMap_self t.docs H _ hm]
    refine ⟨h2, ?_⟩
    rw [h2]
    exact hm
  · intro nd d2 hres hh
    have h2 : (t.add_new_doc nd).2 = t := by
      rw [add_new_doc_ok t nd d2 hres, hh, hm]
      simp only [stage_value, DocChange.add]
      rw [updateMap_self t.docs H _ hm]
    refine ⟨h2, ?_⟩
    rw [h2]
    exact hm

/-- C4 witness: concrete transaction `tAdd` with a pending `Add` of
`docN` at hash 5. -/
theorem add_on_pending_add_noop_witness :
    tAdd.docs 5 = some (DocChange.Add encN docN wFalse) ∧
      ((∀ doc : Document, doc.hash = 5 → (tAdd.add_doc doc).2 = tAdd ∧
          ((tAdd.add_doc doc).2).docs 5 = some (DocChange.Add encN docN wFalse)) ∧
        (∀ (nd : NewDocument) (d2 : Document),
          (tAdd.add_new_doc nd).1 = Except.ok d2 → d2.hash = 5 →
          (tAdd.add_new_doc nd).2 = tAdd ∧
          ((tAdd.add_new_doc nd).2).docs 5 = some (DocChange.Add encN docN wFalse))) :=
  ⟨rfl, add_on_pending_add_noop tAdd 5 encN docN wFalse rfl⟩

/-- C2: when the pending change for hash `H` is `DocChange::Modify` with
weak-flag map `m`, successfully staging an add for `H` (via `add_doc` or
`add_new_doc`) replaces it with a `DocChange::Add` whose weak set holds
exactly the references `m` maps to `true`. -/
theorem modify_then_add_folds (t : Transaction) (H : Hash) (m : Hash → Option Bool)
    (hm : t.docs H = some (DocChange.Modify m)) :
    (∀ doc : Document, doc.hash = H → (t.add_doc doc).1 = Except.ok () →
      ∃ e w, ((t.add_doc doc).2).docs H = some (DocChange.Add e doc w) ∧
        ∀ r, (w r = true ↔ m r = some true)) ∧
    (∀ (nd : NewDocument) (d : Document), (t.add_new_doc nd).1 = Except.ok d →
      d.hash = H →
      ∃ e w, ((t.add_new_doc nd).2).docs H = some (DocChange.Add e d w) ∧
        ∀ r, (w r = true ↔ m r = some true)) := by
  have key : ∀ r, (((m r).getD false) = true ↔ m r = some true) := by
    intro r
    cases hr : m r with
    | none => simp
    | some b => cases b <;> simp
  constructor
  · intro doc hh hok
    rw [add_doc_ok t doc hok, hh, hm]
    simp only [stage_value, DocChange.add]
    exact ⟨_, _, updateMap_same t.docs H _, key⟩
  · intro nd d hok hh
    rw [add_new_doc_ok t nd d hok, hh, hm]
    simp only [stage_value, DocChange.add]
    exact ⟨_, _, updateMap_same t.docs H _, key⟩

/-- C2 witness: concrete transaction `tMod` with a pending
`Modify mExample` at hash 5. -/
theorem modify_then_add_folds_witness :
    tMod.docs 5 = some (DocChange.Modify mExample) ∧
      ((∀ doc : Document, doc.hash = 5 → (tMod.add_doc doc).1 = Except.ok () →
        ∃ e w, ((tMod.add_doc doc).2).docs 5 = some (DocChange.Add e doc w) ∧
          ∀ r, (w r = true ↔ mExample r = some true)) ∧
      (∀ (nd : NewDocument) (d : Document), (tMod.add_new_doc nd).1 = Except.ok d →
        d.hash = 5 →
        ∃ e w, ((tMod.add_new_doc nd).2).docs 5 = some (DocChange.Add e d w) ∧
          ∀ r, (w r = true ↔ mExample r = some true))) :=
  ⟨rfl, modify_then_add_folds tMod 5 mExample rfl⟩

/-- C3: `set_weak_ref(H, R, true)` followed by staging an add for `H`
(via `add_doc`) yields a `DocChange::Add` whose weak set contains `R`,
and the final transaction state equals the one produced by the reverse
order: the two operations commute. -/
theorem set_weak_ref_add_commutes (t : Transaction) (H R : Hash) (doc : Document)
    (hh : doc.hash = H) (hok : (t.add_doc doc).1 = Except.ok ()) :
    ((t.set_weak_ref H R true).add_doc doc).2 =
      ((t.add_doc doc).2).set_weak_ref H R true ∧
    ∃ e d w, (((t.set_weak_ref H R true).add_doc doc).2).docs H =
      some (DocChange.Add e d w) ∧ w R = true := by
  have hok1 : ((t.set_weak_ref H R true).add_doc doc).1 = Except.ok () := by
    rw [add_doc_fst] at hok ⊢
    rw [set_weak_ref_eq]
    exact hok
  have e1 := add_doc_ok (t.set_weak_ref H R true) doc hok1
  have e2 := add_doc_ok t doc hok
  simp only [set_weak_ref_eq] at e1 ⊢
  rw [e2]
  rw [e1]
  dsimp only
  rw [hh]
  simp only [updateMap_same]
  constructor
  · rw [updateMap_updateMap, updateMap_updateMap, stage_swr_comm]
  · obtain ⟨e2, d2, w2, hX, hw⟩ :=
      stage_swr_is_add (t.docs H) ⟨doc.schema_hash, doc.data, doc.refs⟩ doc R
    exact ⟨e2, d2, w2, by rw [hX], hw⟩

/-- C3 witness: the empty transaction `tEmpty`, the schemaless document
`docN` (hash 5), and reference 3. -/
theorem set_weak_ref_add_commutes_witness :
    docN.hash = 5 ∧ (tEmpty.add_doc docN).1 = Except.ok () ∧
      (((tEmpty.set_weak_ref 5 3 true).add_doc docN).2 =
        ((tEmpty.add_doc docN).2).set_weak_ref 5 3 true ∧
      ∃ e d w, (((tEmpty.set_weak_ref 5 3 true).add_doc docN).2).docs 5 =
        some (DocChange.Add e d w) ∧ w 3 = true) :=
  ⟨rfl, rfl, set_weak_ref_add_commutes tEmpty 5 3 docN rfl rfl⟩

/-- Walking the checklist: when every obligation of a prefix resolves and
passes, and the next hash has no pending `Add` and is absent from the
database, the dependency scan fails with `MissingDoc` of that hash. -/
theorem check_refs_append_missing (t : Transaction) (cl₁ cl₂ : List (Hash × CheckItem))
    (h : Hash) (item : CheckItem)
    (hpre : t.check_refs cl₁ = Except.ok ())
    (hpend : t.has_pending_add h = false)
    (hdb : t.db.doc_get h = none) :
    t.check_refs (cl₁ ++ (h, item) :: cl₂) = Except.error (EntryError.MissingDoc h) := by
  induction cl₁ with
  | nil =>
    rw [List.nil_append]
    simp only [Transaction.check_refs]
    unfold Transaction.has_pending_add at hpend
    cases hd : t.docs h with
    | none => simp [hd, hdb]
    | some c =>
      cases c with
      | Add e0 d0 w0 => simp [hd] at hpend
      | Modify m0 => simp [hd, hdb]
  | cons a cl₁ ih =>
    obtain ⟨ah, aitem⟩ := a
    rw [List.cons_append]
    simp only [Transaction.check_refs] at hpre ⊢
    cases hd : t.docs ah with
    | some c =>
      cases c with
      | Add e0 d0 w0 =>
        simp only [hd] at hpre ⊢
        cases hi : aitem d0 with
        | some e => simp [hi] at hpre
        | none =>
          simp only [hi] at hpre ⊢
          exact ih hpre
      | Modify m0 =>
        simp only [hd] at hpre ⊢
        cases hg : t.db.doc_get ah with
        | none => simp [hg] at hpre
        | some d0 =>
          simp only [hg] at hpre ⊢
          cases hi : aitem d0 with
          | some e => simp [hi] at hpre
          | none =>
            simp only [hi] at hpre ⊢
            exact ih hpre
    | none =>
      simp only [hd] at hpre ⊢
      cases hg : t.db.doc_get ah with
      | none => simp [hg] at hpre
      | some d0 =>
        simp only [hg] at hpre ⊢
        cases hi : aitem d0 with
        | some e => simp [hi] at hpre
        | none =>
          simp only [hi] at hpre ⊢
          exact ih hpre

/-- The completed entry and checklist of the C1 scenario. -/
def entryC1 : Entry := ⟨9, [], [11], [11]⟩

/-- A candidate entry whose schema hash is 1. -/
def neC1 : NewEntry := ⟨0, 1⟩

/-- A schema whose entry checklist requires hash 11 with an
always-passing structural check. -/
def schemaC1 : Schema :=
  ⟨fun nd => nd.validated, fun _ => Except.ok ([(11, fun _ => none)], entryC1)⟩

/-- A database holding only `schemaC1` under hash 1. -/
def dbC1 : Db := ⟨fun sh => if sh = 1 then some schemaC1 else none, fun _ => none⟩

/-- An empty transaction over `dbC1`. -/
def tC1 : Transaction := ⟨dbC1, fun _ => none, fun _ => none⟩

/-- C1 (amended): when the schema resolves, the entry validates, every
checklist obligation before `h` resolves and passes, and `h` has no
pending `Add` and is absent from the database, `add_new_entry` returns
the recoverable error `MissingDoc(h)` and leaves the transaction (its
docs and entries maps included) exactly unchanged. -/
theorem add_new_entry_missing_doc (t : Transaction) (entry : NewEntry)
    (schema : Schema) (cl₁ cl₂ : List (Hash × CheckItem)) (h : Hash)
    (item : CheckItem) (completed : Entry)
    (hs : t.db.schema_get entry.schema_hash = some schema)
    (hv : schema.validate_new_entry entry = Except.ok (cl₁ ++ (h, item) :: cl₂, completed))
    (hpre : t.check_refs cl₁ = Except.ok ())
    (hpend : t.has_pending_add h = false)
    (hdb : t.db.doc_get h = none) :
    t.add_new_entry entry = (Except.error (EntryError.MissingDoc h), t) := by
  have hcheck := check_refs_append_missing t cl₁ cl₂ h item hpre hpend hdb
  unfold Transaction.add_new_entry
  simp only [hs, hv, hcheck]

/-- C1 witness: the empty transaction `tC1`, whose database resolves
schema 1 to `schemaC1`; the checklist is exactly the missing hash 11. -/
theorem add_new_entry_missing_doc_witness :
    tC1.db.schema_get neC1.schema_hash = some schemaC1 ∧
    schemaC1.validate_new_entry neC1 =
      Except.ok (([] : List (Hash × CheckItem)) ++
        (11, (fun _ => none : CheckItem)) :: [], entryC1) ∧
    tC1.check_refs [] = Except.ok () ∧
    tC1.has_pending_add 11 = false ∧
    tC1.db.doc_get 11 = none ∧
    tC1.add_new_entry neC1 = (Except.error (EntryError.MissingDoc 11), tC1) :=
  ⟨rfl, rfl, rfl, rfl, rfl,
    add_new_entry_missing_doc tC1 neC1 schemaC1 [] [] 11 (fun _ => none) entryC1
      rfl rfl rfl rfl rfl⟩

/-- The document pending as an `Add` in the C1 counterexample. -/
def doc10 : Document := ⟨10, none, [], []⟩

/-- The encoding of `doc10`. -/
def enc10 : EncodedDoc := ⟨none, [], []⟩

/-- A checklist with two obligations: hash 10 (whose structural check
fails with error 7) followed by hash 11 (always-passing check). -/
def clCex : List (Hash × CheckItem) := [(10, fun _ => some 7), (11, fun _ => none)]

/-- The completed entry of the counterexample scenario. -/
def entryCex : Entry := ⟨9, [], [10, 11], [10, 11]⟩

/-- A schema producing the two-obligation checklist `clCex`. -/
def schemaCex : Schema := ⟨fun nd => nd.validated, fun _ => Except.ok (clCex, entryCex)⟩

/-- A database holding only `schemaCex` under hash 1. -/
def dbCex : Db := ⟨fun sh => if sh = 1 then some schemaCex else none, fun _ => none⟩

/-- A transaction over `dbCex` with a pending `Add` of `doc10`. -/
def tCex : Transaction :=
  ⟨dbCex, fun hh => if hh = 10 then some (DocChange.Add enc10 doc10 wFalse) else none,
    fun _ => none⟩

/-- A candidate entry whose schema hash is 1, for the counterexample. -/
def neCex : NewEntry := ⟨0, 1⟩

/-- C1 counterexample: hash 11 is marked required by the schema's
checklist and is present neither among the transaction's pending
`DocChange::Add` documents nor in the database, yet `add_new_entry` does
not return `MissingDoc(11)`: the earlier obligation on hash 10 fails its
structural check first, so the call returns `DocValidationFail(10, 7)` —
the scan aborts at the first failing obligation. -/
theorem add_new_entry_missing_doc_cex :
    (clCex.map Prod.fst).contains 11 = true ∧
    tCex.db.schema_get neCex.schema_hash = some schemaCex ∧
    schemaCex.validate_new_entry neCex = Except.ok (clCex, entryCex) ∧
    tCex.has_pending_add 11 = false ∧
    tCex.db.doc_get 11 = none ∧
    (tCex.add_new_entry neCex).1 = Except.error (EntryError.DocValidationFail 10 7) ∧
    (tCex.add_new_entry neCex).1 ≠ Except.error (EntryError.MissingDoc 11) := by
  refine ⟨rfl, rfl, rfl, rfl, rfl, rfl, ?_⟩
  intro hcontra
  rw [show (tCex.add_new_entry neCex).1 =
      Except.error (EntryError.DocValidationFail 10 7) from rfl] at hcontra
  injection hcontra with h2
  exact absurd h2 (by decide)

end FogDb
